import Mathlib

/-
Verification of the socket_chat server (src/server.py, src/client.py) against its
specification. The development shallowly embeds the parts of the program the
claims are about:

* the wire codec used by `ChatServer.send_message` / `receive_message`
  (`json.dumps(data) + '\n'` and split-at-newline + `json.loads`), including
  Python's default `ensure_ascii` escaping with surrogate pairs;
* the registry of connected clients (the `self.clients` dict guarded by
  `self.clients_lock`) and the operations on it: the join handshake of
  `get_username` / `handle_client`, `disconnect_client`, `broadcast_message`,
  `process_message`;
* the framing loop of `receive_message` over a queue of transport chunks;
* an interleaving model of the join handshake at the granularity of the
  code's lock acquisitions, for the concurrency claim about name uniqueness.

Modelling conventions: sockets are opaque `Nat` identities; `time.time()`
results are `Nat` parameters; Python strings are Lean `String`/`List Char`
(`str.strip()` is modelled over the ASCII whitespace characters); transport
failure is a predicate `fails : Nat → Bool` saying which sockets' writes raise.
-/

namespace SocketChat

/-! ### Character helpers -/

/-- Decimal digit test, `48 ≤ c ≤ 57` on code points. -/
def isDig (c : Char) : Bool := 48 ≤ c.toNat && c.toNat ≤ 57

/-- JSON whitespace skipped by `json.loads` between tokens. -/
def isWsChar (c : Char) : Bool := c == ' ' || c == '\t' || c == '\n' || c == '\r'

/-- Whitespace stripped by Python `str.strip()` (ASCII subset). -/
def isPySpace (c : Char) : Bool :=
  c == ' ' || c == '\t' || c == '\n' || c == '\r' || c == '\x0b' || c == '\x0c'

/-- Python `str.strip()` on a character list: drop leading and trailing whitespace. -/
def pyStripL (cs : List Char) : List Char :=
  ((cs.dropWhile isPySpace).reverse.dropWhile isPySpace).reverse

/-- Python `str.strip()`. -/
def pyStrip (s : String) : String := String.mk (pyStripL s.toList)

/-- The character `{` (written via its code point throughout). -/
def lcurly : Char := Char.ofNat 123

/-- The character `}` (written via its code point throughout). -/
def rcurly : Char := Char.ofNat 125

/-- Lower-case hexadecimal digit for `n < 16`, as `json.dumps` prints in
    `\uXXXX` escapes. -/
def hexDigitChar (n : Nat) : Char :=
  if n < 10 then Char.ofNat (48 + n) else Char.ofNat (87 + n)

/-- Hexadecimal digit test (both cases), as accepted by `json.loads`. -/
def isHexChar (c : Char) : Bool :=
  (48 ≤ c.toNat && c.toNat ≤ 57) || (97 ≤ c.toNat && c.toNat ≤ 102)
    || (65 ≤ c.toNat && c.toNat ≤ 70)

/-- Value of a hexadecimal digit character. -/
def hexCharVal (c : Char) : Nat :=
  if 48 ≤ c.toNat && c.toNat ≤ 57 then c.toNat - 48
  else if 97 ≤ c.toNat && c.toNat ≤ 102 then c.toNat - 87
  else c.toNat - 55

/-- Value of four hexadecimal digit characters. -/
def hex4val (a b c d : Char) : Nat :=
  ((hexCharVal a * 16 + hexCharVal b) * 16 + hexCharVal c) * 16 + hexCharVal d

/-! ### The wire value space

The messages the program puts on the wire are JSON objects whose fields are
strings, timestamps (`time.time()`, modelled as `Nat`), and lists of strings
(the `users` snapshot). `JVal` is this value space; `null`, booleans and
negative/fractional numbers are unused by the protocol and not modelled. -/

inductive JVal where
  | str (s : String)
  | num (n : Nat)
  | arr (elements : List JVal)
  | obj (members : List (String × JVal))

/-! ### json.dumps (as called by send_message with default options) -/

/-- A `\uXXXX` escape group for code point `n < 0x10000` (lower-case hex,
    as `json.dumps` emits). -/
def uEsc (n : Nat) : List Char :=
  ['\\', 'u', hexDigitChar (n / 4096 % 16), hexDigitChar (n / 256 % 16),
   hexDigitChar (n / 16 % 16), hexDigitChar (n % 16)]

/-- Escaping of one character by `json.dumps` with its default
    `ensure_ascii=True`: the named escapes for quote, backslash and the five
    control characters with short forms, `\uXXXX` for every other character
    outside printable ASCII, and a UTF-16 surrogate pair of escapes for code
    points beyond the basic multilingual plane. -/
def pyEscape (c : Char) : List Char :=
  if c = '"' then ['\\', '"']
  else if c = '\\' then ['\\', '\\']
  else if c = '\n' then ['\\', 'n']
  else if c = '\r' then ['\\', 'r']
  else if c = '\t' then ['\\', 't']
  else if c = '\x08' then ['\\', 'b']
  else if c = '\x0c' then ['\\', 'f']
  else if c.toNat < 32 then uEsc c.toNat
  else if c.toNat ≤ 126 then [c]
  else if c.toNat < 65536 then uEsc c.toNat
  else uEsc (55296 + (c.toNat - 65536) / 1024) ++ uEsc (56320 + (c.toNat - 65536) % 1024)

/-- Escape every character of a string body. -/
def escapeAll : List Char → List Char
  | [] => []
  | c :: cs => pyEscape c ++ escapeAll cs

/-- A serialized JSON string: quote, escaped body, quote. -/
def dumpString (s : String) : List Char := '"' :: (escapeAll s.toList ++ ['"'])

/-- Decimal digits of `n`, most significant first. -/
def natToChars (n : Nat) : List Char :=
  if _h : n < 10 then [Char.ofNat (48 + n)]
  else natToChars (n / 10) ++ [Char.ofNat (48 + n % 10)]
termination_by n
decreasing_by exact Nat.div_lt_self (by omega) (by omega)

mutual
/-- Serialization of one value, matching `json.dumps` with its default
    separators `", "` and `": "`. -/
def dumpVal : JVal → List Char
  | .str s => dumpString s
  | .num n => natToChars n
  | .arr es => '[' :: (dumpElems es ++ [']'])
  | .obj ms => lcurly :: (dumpMembers ms ++ [rcurly])
/-- Array elements joined by `", "`. -/
def dumpElems : List JVal → List Char
  | [] => []
  | v :: vs => dumpVal v ++ sepElems vs
/-- Continuation of an element list: each further element preceded by `", "`. -/
def sepElems : List JVal → List Char
  | [] => []
  | v :: vs => ',' :: ' ' :: (dumpVal v ++ sepElems vs)
/-- Object members `"key": value` joined by `", "`. -/
def dumpMembers : List (String × JVal) → List Char
  | [] => []
  | (k, v) :: ms => dumpString k ++ ':' :: ' ' :: (dumpVal v ++ sepMembers ms)
/-- Continuation of a member list: each further member preceded by `", "`. -/
def sepMembers : List (String × JVal) → List Char
  | [] => []
  | (k, v) :: ms => ',' :: ' ' :: (dumpString k ++ ':' :: ' ' :: (dumpVal v ++ sepMembers ms))
end

/-- json.dumps on a wire value. -/
def dumps (v : JVal) : List Char := dumpVal v

/-- The bytes `send_message` writes for a value: `json.dumps(data) + '\n'`
    (server.py line 172, client.py line 202). -/
def encode (v : JVal) : List Char := dumps v ++ ['\n']

/-! ### json.loads (as called by receive_message)

A recursive-descent parser over the modelled value space. The `fuel` argument
is a totality device only; the top-level entry point passes more fuel than the
parser can consume, one unit per recursive step. Inputs outside the modelled
value space (null, booleans, signed or fractional numbers) fail where
`json.loads` would succeed; no claim depends on them. -/

/-- Skip JSON whitespace. -/
def skipSpaces : List Char → List Char
  | c :: cs => if isWsChar c then skipSpaces cs else c :: cs
  | [] => []

/-- Short escapes accepted after a backslash in a JSON string. -/
def namedUnescape (c : Char) : Option Char :=
  if c = '"' then some '"'
  else if c = '\\' then some '\\'
  else if c = '/' then some '/'
  else if c = 'n' then some '\n'
  else if c = 'r' then some '\r'
  else if c = 't' then some '\t'
  else if c = 'b' then some '\x08'
  else if c = 'f' then some '\x0c'
  else none

/-- Parse a JSON string body after the opening quote, undoing `pyEscape`:
    named escapes, `\uXXXX` groups, surrogate-pair recombination for astral
    code points, raw control characters rejected (Python's `strict=True`).
    A lone surrogate escape is unrepresentable as a `Char` and fails. -/
def parseStrBody (acc : List Char) : List Char → Option (List Char × List Char)
  | [] => none
  | c :: rest =>
    if c = '"' then some (acc.reverse, rest)
    else if c = '\\' then
      match rest with
      | [] => none
      | e :: rest2 =>
        if e = 'u' then
          match rest2 with
          | a :: b :: c2 :: d :: rest3 =>
            if isHexChar a && isHexChar b && isHexChar c2 && isHexChar d then
              if 55296 ≤ hex4val a b c2 d ∧ hex4val a b c2 d < 56320 then
                match rest3 with
                | e2 :: u2 :: a2 :: b2 :: c3 :: d2 :: rest4 =>
                  if e2 = '\\' ∧ u2 = 'u' then
                    if isHexChar a2 && isHexChar b2 && isHexChar c3 && isHexChar d2 then
                      if 56320 ≤ hex4val a2 b2 c3 d2 ∧ hex4val a2 b2 c3 d2 < 57344 then
                        parseStrBody (Char.ofNat (65536 + (hex4val a b c2 d - 55296) * 1024
                          + (hex4val a2 b2 c3 d2 - 56320)) :: acc) rest4
                      else none
                    else none
                  else none
                | _ => none
              else if 56320 ≤ hex4val a b c2 d ∧ hex4val a b c2 d < 57344 then none
              else parseStrBody (Char.ofNat (hex4val a b c2 d) :: acc) rest3
            else none
          | _ => none
        else
          match namedUnescape e with
          | some ch => parseStrBody (ch :: acc) rest2
          | none => none
    else if c.toNat < 32 then none
    else parseStrBody (c :: acc) rest

/-- Consume a run of decimal digits, accumulating their value. -/
def parseDigits : List Char → Nat → Nat × List Char
  | c :: cs, acc => if isDig c then parseDigits cs (acc * 10 + (c.toNat - 48)) else (acc, c :: cs)
  | [], acc => (acc, [])

/-- No leading decimal digit: where a number token must end. -/
def noDigitHead : List Char → Bool
  | [] => true
  | c :: _ => !isDig c

mutual
/-- Parse one value. -/
def parseVal : Nat → List Char → Option (JVal × List Char)
  | 0, _ => none
  | fuel + 1, input =>
    match skipSpaces input with
    | [] => none
    | c :: rest =>
      if c = '"' then
        (parseStrBody [] rest).map (fun p => (JVal.str (String.mk p.1), p.2))
      else if c = '[' then
        match skipSpaces rest with
        | [] => none
        | c2 :: r2 =>
          if c2 = ']' then some (.arr [], r2)
          else (parseElems fuel (c2 :: r2)).map (fun p => (JVal.arr p.1, p.2))
      else if c = lcurly then
        match skipSpaces rest with
        | [] => none
        | c2 :: r2 =>
          if c2 = rcurly then some (.obj [], r2)
          else (parseMembers fuel (c2 :: r2)).map (fun p => (JVal.obj p.1, p.2))
      else if isDig c then
        some (.num (parseDigits (c :: rest) 0).1, (parseDigits (c :: rest) 0).2)
      else none
/-- Parse one or more comma-separated array elements and the closing bracket. -/
def parseElems : Nat → List Char → Option (List JVal × List Char)
  | 0, _ => none
  | fuel + 1, input =>
    match parseVal fuel input with
    | none => none
    | some (v, rest) =>
      match skipSpaces rest with
      | [] => none
      | c :: r2 =>
        if c = ',' then (parseElems fuel (skipSpaces r2)).map (fun p => (v :: p.1, p.2))
        else if c = ']' then some ([v], r2)
        else none
/-- Parse one or more comma-separated object members and the closing brace. -/
def parseMembers : Nat → List Char → Option (List (String × JVal) × List Char)
  | 0, _ => none
  | fuel + 1, input =>
    match skipSpaces input with
    | [] => none
    | c :: r1 =>
      if c = '"' then
        match parseStrBody [] r1 with
        | none => none
        | some (kcs, r2) =>
          match skipSpaces r2 with
          | [] => none
          | c2 :: r3 =>
            if c2 = ':' then
              match parseVal fuel (skipSpaces r3) with
              | none => none
              | some (v, r4) =>
                match skipSpaces r4 with
                | [] => none
                | c3 :: r5 =>
                  if c3 = ',' then
                    (parseMembers fuel (skipSpaces r5)).map
                      (fun p => ((String.mk kcs, v) :: p.1, p.2))
                  else if c3 = rcurly then some ([(String.mk kcs, v)], r5)
                  else none
            else none
      else none
end

/-- json.loads on one frame. The fuel passed exceeds anything the parser can
    use, since every recursive step consumes at least one character. Trailing
    non-whitespace is rejected, as `json.loads` does. -/
def loads (s : List Char) : Option JVal :=
  match parseVal (s.length + 1) s with
  | some (v, rest) => if skipSpaces rest = [] then some v else none
  | none => none

/-! ### Framing (receive_message, server.py 177-200 and client.py 210-243) -/

/-- Python `buffer.split('\n', 1)` when a newline is present: the part before
    the first newline and the part after it. -/
def splitNl : List Char → List Char × List Char
  | [] => ([], [])
  | c :: cs => if c = '\n' then ([], cs) else (c :: (splitNl cs).1, (splitNl cs).2)

/-- Decoding of one frame as the readers do it (server.py 188-193, client.py
    227-233): split the received bytes at the first newline terminator and
    `json.loads` the prefix; without a terminator the reader keeps waiting,
    modelled as `none`. -/
def decode (s : List Char) : Option JVal :=
  if s.contains '\n' then loads (splitNl s).1 else none

/-- The accumulation loop of `receive_message`: starting from a (local, empty)
    buffer, append `recv` chunks until the buffer contains a newline. An empty
    chunk means the peer closed the connection and yields `none`; an exhausted
    queue means the loop would block with no data to come, also `none`.
    On success: the buffer and the chunks not yet read. -/
def recvLoop : List Char → List (List Char) → Option (List Char × List (List Char))
  | buffer, queue =>
    if buffer.contains '\n' then some (buffer, queue)
    else
      match queue with
      | [] => none
      | chunk :: rest => if chunk.isEmpty then none else recvLoop (buffer ++ chunk) rest

/-- One call of `ChatServer.receive_message` over a queue of transport chunks.
    Returns the `json.loads` of the first frame, the bytes of the buffer after
    the first newline — which the code computes into `remaining` and then
    drops (the `pass` at line 191) — and the chunk queue a next call would
    read from. The buffer is a local variable, so the dropped remainder is
    not part of that carried-over state. -/
def receive_message (queue : List (List Char)) :
    Option JVal × List Char × List (List Char) :=
  match recvLoop [] queue with
  | none => (none, [], queue)
  | some (buffer, restQ) =>
    let p := splitNl buffer
    (loads p.1, p.2, restQ)

/-! ### Registry (the `self.clients` dict under `self.clients_lock`) -/

/-- A socket identity (opaque, unique per connection). -/
abbrev Session := Nat

/-- The `self.clients` mapping, socket to username, in insertion order
    (Python dicts preserve it; `list(self.clients.values())` relies on it). -/
abbrev Registry := List (Session × String)

/-- `list(self.clients.values())`. -/
def values (r : Registry) : List String := r.map Prod.snd

/-- `list(self.clients.keys())`. -/
def keys (r : Registry) : List Session := r.map Prod.fst

/-- `self.clients.get(sock)`. -/
def lookupName (r : Registry) (sock : Session) : Option String :=
  (r.find? (fun p => p.1 == sock)).map Prod.snd

/-- `del self.clients[sock]` for a present key (removes its entry). -/
def delSock (r : Registry) (sock : Session) : Registry :=
  r.filter (fun p => p.1 != sock)

/-- The registry removal performed by `ChatServer.disconnect_client`
    (server.py 222-224): under the lock, delete the socket's entry if present,
    otherwise do nothing. The second component is the name the removed entry
    carried — the value callers read out of the mapping for the departure
    notice (`broadcast_message` line 216 uses `self.clients.get`) — or `none`
    when the socket was already absent. -/
def registryRemove (r : Registry) (sock : Session) : Registry × Option String :=
  if r.any (fun p => p.1 == sock) then (delSock r sock, lookupName r sock)
  else (r, none)

/-! ### Wire messages built by the server -/

/-- The message dictionaries the server constructs (server.py literals at
    lines 79-84, 87-92, 129-132, 138-141, 156-161, 167, 230-235). -/
inductive Msg where
  | chat (username message : String) (timestamp : Nat)
  | userJoined (username message : String) (timestamp : Nat)
  | userLeft (username message : String) (timestamp : Nat)
  | welcome (message : String) (users : List String) (timestamp : Nat)
  | error (message : String)
  | pong
deriving DecidableEq

/-- An outward action of a handler: a broadcast with an optional excluded
    socket, or a direct send to one socket. -/
inductive Effect where
  | broadcast (m : Msg) (exclude : Option Session)
  | send (target : Session) (m : Msg)
deriving DecidableEq

/-- The shapes of client messages `process_message` distinguishes by their
    `type` field; `chat` carries `message_data.get('message', '')`. -/
inductive ClientMsg where
  | chat (message : String)
  | ping
  | other
deriving DecidableEq

/-! ### Sending (send_message, server.py 169-175) -/

/-- How a Python call exits: normal return or raised exception. -/
inductive PyExit where
  | returned
  | raised
deriving DecidableEq

/-- The transport write `client_socket.send(...)`: raises for the sockets in
    `fails`, returns otherwise. -/
def socket_send (fails : Session → Bool) (sock : Session) : PyExit :=
  if fails sock then .raised else .returned

/-- `ChatServer.send_message`: encodes and writes, with the whole body inside
    `try/except Exception` that logs and falls through. First component: how
    the call exits — always `.returned`, a raised transport error is swallowed
    at line 174. Second component: whether the bytes reached the socket. -/
def send_message (fails : Session → Bool) (sock : Session) : PyExit × Bool :=
  match socket_send fails sock with
  | .returned => (.returned, true)
  | .raised => (.returned, false)

/-! ### Broadcasting (broadcast_message, server.py 202-217) -/

/-- The observable outcome of one `broadcast_message` call. -/
structure BroadcastOut where
  /-- Sockets the payload was actually written to. -/
  sent : List Session
  /-- Sockets iterated over (all registered clients minus the exclusion). -/
  attempted : List Session
  /-- Sockets collected into `disconnected_clients`: those for which
      `self.send_message(...)` raised into the `except` at line 211. -/
  disconnected : List Session
  /-- The registry after the cleanup loop at lines 215-217. -/
  clientsAfter : Registry
  /-- `user_left` notices produced by the cleanup loop. The loop calls
      `disconnect_client(..., notify=False)`, which skips the notification
      branch, so no notice is produced even when cleanup runs. -/
  leftNotices : List Effect
deriving DecidableEq

/-- `ChatServer.broadcast_message`: under the lock, iterate the registered
    sockets, skip the excluded one, call `send_message` on each — which never
    raises (its body catches `Exception`), so the `except` branch that fills
    `disconnected_clients` is unreachable and the cleanup loop runs over an
    empty list. The fields record each part of that faithfully. -/
def broadcast_message (fails : Session → Bool) (r : Registry) (_m : Msg)
    (exclude : Option Session) : BroadcastOut :=
  let targets := (keys r).filter (fun s => !(some s == exclude))
  let disconnected := targets.filter (fun s => (send_message fails s).1 == .raised)
  { sent := targets.filter (fun s => (send_message fails s).2)
    attempted := targets
    disconnected := disconnected
    clientsAfter := disconnected.foldl (fun acc s => (registryRemove acc s).1) r
    leftNotices := [] }

/-- Deliveries caused by one effect: for a broadcast, the payload reaches the
    `sent` sockets; for a direct send, the target unless its transport fails. -/
def effectDeliveries (fails : Session → Bool) (r : Registry) : Effect → List (Session × Msg)
  | .broadcast m ex => ((broadcast_message fails r m ex).sent).map (fun s => (s, m))
  | .send t m => if fails t then [] else [(t, m)]

/-- Deliveries caused by a list of effects against a fixed registry. -/
def deliveries (fails : Session → Bool) (r : Registry) (effs : List Effect) :
    List (Session × Msg) :=
  (effs.map (effectDeliveries fails r)).flatten

/-! ### The join handshake (get_username, server.py 117-146) -/

/-- Outcome of the username validation and takenness check. -/
inductive JoinOutcome where
  | accepted (name : String)
  | nameTaken
  | invalidName
deriving DecidableEq

/-- The decision logic of `ChatServer.get_username` once a `join` message with
    a `username` field has been received: strip the name; require it nonempty
    and at most 20 characters (else the `Invalid username` error, line
    138-141); under the lock, reject names already in `self.clients.values()`
    with `Username already taken` (lines 127-133); otherwise accept. There is
    no character-set check in the server. -/
def get_username (r : Registry) (raw : String) : JoinOutcome :=
  let username := pyStrip raw
  if username ≠ "" ∧ username.length ≤ 20 then
    if (values r).contains username then .nameTaken else .accepted username
  else .invalidName

/-- The spec's InvalidName condition, stated from its words: name empty,
    longer than 20 characters, or containing a character outside letters,
    digits, hyphen and underscore. -/
def specInvalidName (name : String) : Bool :=
  name == "" || 20 < name.length
    || !(name.toList.all fun c => c.isAlphanum || c == '-' || c == '_')

/-! ### Acceptance path of handle_client (server.py 74-92) -/

/-- What `handle_client` does after `get_username` accepted: insert the socket
    into the registry under the lock (lines 75-76), broadcast `user_joined`
    excluding the new socket (79-84), then send the `welcome` carrying
    `list(self.clients.values())` (87-92). `t1`, `t2` are the two
    `time.time()` readings. Returns the updated registry and the effect
    sequence in program order. -/
def handle_client_join (r : Registry) (sock : Session) (username : String)
    (t1 t2 : Nat) : Registry × List Effect :=
  let r2 := r ++ [(sock, username)]
  (r2,
    [ .broadcast (.userJoined username (username ++ " joined the chat") t1) (some sock),
      .send sock (.welcome ("Welcome to the chat, " ++ username ++ "!") (values r2) t2) ])

/-- Position of the first `welcome` send in an effect sequence. -/
def idxWelcome (tr : List Effect) : Nat :=
  tr.findIdx fun e =>
    match e with
    | .send _ (.welcome _ _ _) => true
    | _ => false

/-- Position of the first `user_joined` broadcast in an effect sequence. -/
def idxUserJoined (tr : List Effect) : Nat :=
  tr.findIdx fun e =>
    match e with
    | .broadcast (.userJoined _ _ _) _ => true
    | _ => false

/-! ### Message processing (process_message, server.py 148-167) -/

/-- `ChatServer.process_message`: a `chat` message has its content stripped;
    nonempty content is stamped with the sender's name and the current time
    and broadcast with no exclusion; empty content does nothing. A `ping` gets
    a direct `pong`. Unrecognized types are ignored. -/
def process_message (sock : Session) (username : String) (m : ClientMsg)
    (now : Nat) : List Effect :=
  match m with
  | .chat raw =>
    let content := pyStrip raw
    if content ≠ "" then [.broadcast (.chat username content now) none] else []
  | .ping => [.send sock .pong]
  | .other => []

/-! ### Interleaved join attempts (the concurrency model for the registry)

The join handshake touches the registry in two separately locked steps:
`get_username` holds `clients_lock` for the takenness check (server.py
127-133) and releases it, then `handle_client` re-acquires it for the insert
(75-76). Each lock-guarded section is one atomic action here; a schedule is a
list of (socket, action) pairs, and actions fire only when their session is in
the right phase — exactly the code's control flow per thread. -/

/-- Phase of one session's join attempt. -/
inductive JoinPhase where
  | waiting
  | checkedFree
  | inserted
  | rejected
deriving DecidableEq

/-- One session attempting to join: its socket, requested name, and phase. -/
structure JoinAttempt where
  sock : Session
  name : String
  phase : JoinPhase
deriving DecidableEq

/-- Server state for the interleaving model. -/
structure ServerSt where
  clients : Registry
  attempts : List JoinAttempt
deriving DecidableEq

/-- The two atomic (lock-guarded) registry actions of a join. -/
inductive JoinStep where
  | checkName
  | insertName
deriving DecidableEq

/-- The attempt record of a socket. -/
def findAttempt (st : ServerSt) (sock : Session) : Option JoinAttempt :=
  st.attempts.find? (fun a => a.sock == sock)

/-- Replace the phase of a socket's attempt. -/
def setPhase (st : ServerSt) (sock : Session) (ph : JoinPhase) : ServerSt :=
  { st with attempts :=
      st.attempts.map (fun a => if a.sock == sock then { a with phase := ph } else a) }

/-- One atomic action: `checkName` is get_username's lock-guarded test of
    `username in self.clients.values()`; `insertName` is handle_client's
    separately lock-guarded `self.clients[client_socket] = username`. An
    action not enabled by its session's phase leaves the state unchanged. -/
def joinStep (st : ServerSt) (sock : Session) (a : JoinStep) : ServerSt :=
  match findAttempt st sock with
  | none => st
  | some att =>
    match a with
    | .checkName =>
      if att.phase = .waiting then
        if (values st.clients).contains att.name then setPhase st sock .rejected
        else setPhase st sock .checkedFree
      else st
    | .insertName =>
      if att.phase = .checkedFree then
        let st2 := setPhase st sock .inserted
        { st2 with clients := st2.clients ++ [(sock, att.name)] }
      else st

/-- Run a schedule of interleaved actions. -/
def runSchedule (st : ServerSt) (sched : List (Session × JoinStep)) : ServerSt :=
  sched.foldl (fun s p => joinStep s p.1 p.2) st

/-- Two sessions, sockets 1 and 2, both about to join as "alice", registry
    empty. -/
def raceInit : ServerSt :=
  ⟨[], [⟨1, "alice", .waiting⟩, ⟨2, "alice", .waiting⟩]⟩

/-- The racy interleaving: both lock-guarded checks complete before either
    lock-guarded insert. -/
def raceSched : List (Session × JoinStep) :=
  [(1, .checkName), (2, .checkName), (1, .insertName), (2, .insertName)]

/-! ## Theorems -/

/-- C1: the claim says that for a valid free name, two concurrent joins with
    the same name result in exactly one acceptance, the check-and-insert being
    one atomic critical section. The code takes the lock separately for the
    check (get_username, server.py 127-133) and the insert (handle_client,
    75-76); under the interleaving in which both checks run before either
    insert, both sessions are accepted and the registry maps two live sessions
    to the name "alice" — the membership list is not duplicate-free. -/
theorem C1_join_race_eval :
    (runSchedule raceInit raceSched).clients = [(1, "alice"), (2, "alice")]
    ∧ (findAttempt (runSchedule raceInit raceSched) 1).map JoinAttempt.phase = some .inserted
    ∧ (findAttempt (runSchedule raceInit raceSched) 2).map JoinAttempt.phase = some .inserted
    ∧ ¬ (values (runSchedule raceInit raceSched).clients).Nodup := by
  decide

/-- C2: the claim says a failed send during a broadcast to three sessions
    still delivers to the other two (true), removes the failed recipient from
    the registry (false) and sends exactly one user_left notice to the two
    survivors (false). Evaluating `broadcast_message` with the transport to
    socket 2 failing: the payload reaches sockets 1 and 3, but send_message
    swallows the transport error, so `disconnected_clients` stays empty, the
    registry still contains socket 2, and no user_left notice is produced. -/
theorem C2_broadcast_failure_eval :
    (broadcast_message (fun s => s == 2) [(1, "alice"), (2, "bob"), (3, "carol")]
        (.chat "alice" "hi" 7) none).sent = [1, 3]
    ∧ (broadcast_message (fun s => s == 2) [(1, "alice"), (2, "bob"), (3, "carol")]
        (.chat "alice" "hi" 7) none).attempted = [1, 2, 3]
    ∧ (broadcast_message (fun s => s == 2) [(1, "alice"), (2, "bob"), (3, "carol")]
        (.chat "alice" "hi" 7) none).disconnected = []
    ∧ (broadcast_message (fun s => s == 2) [(1, "alice"), (2, "bob"), (3, "carol")]
        (.chat "alice" "hi" 7) none).clientsAfter = [(1, "alice"), (2, "bob"), (3, "carol")]
    ∧ (broadcast_message (fun s => s == 2) [(1, "alice"), (2, "bob"), (3, "carol")]
        (.chat "alice" "hi" 7) none).leftNotices = [] := by
  decide

/-- C3: the claim says the frame reader retains the bytes after the first
    newline as the start of the next frame. Evaluating `receive_message` on a
    single chunk holding two complete frames: the first frame is decoded, the
    second frame's bytes land in the dropped remainder (second component), the
    state carried to the next call is empty, and that next call — with only
    the carried state to read — returns nothing, so the second frame is lost. -/
theorem C3_remainder_discarded_eval :
    receive_message [encode (JVal.obj [("type", JVal.str "ping")])
        ++ encode (JVal.obj [("type", JVal.str "chat")])]
      = (some (JVal.obj [("type", JVal.str "ping")]),
         encode (JVal.obj [("type", JVal.str "chat")]), [])
    ∧ receive_message [] = (none, [], []) :=
  ⟨rfl, rfl⟩

/-- C4 counterexample: the claim says a name containing a character outside
    letters, digits, hyphen and underscore is rejected with InvalidName; but
    the server's get_username accepts "bob!" (the allowed-character check only
    exists in the client's input validation, not in the server). -/
theorem C4_counterexample :
    specInvalidName "bob!" = true ∧ get_username [] "bob!" = .accepted "bob!" := by
  decide

/-- C4 (amended): the server rejects a join with InvalidName exactly when the
    stripped name is empty or longer than 20 characters; in particular "" and
    a 21-character name are rejected, while "bob!" — invalid per the spec's
    character rule — is accepted when free. -/
theorem C4_amended_validation (r : Registry) (raw : String) :
    (get_username r raw = .invalidName ↔ (pyStrip raw = "" ∨ 20 < (pyStrip raw).length))
    ∧ get_username [] "" = .invalidName
    ∧ get_username [] "aaaaaaaaaaaaaaaaaaaaa" = .invalidName
    ∧ get_username [] "bob!" = .accepted "bob!" := by
  refine ⟨?_, by decide, by decide, by decide⟩
  simp only [get_username]
  by_cases h : pyStrip raw ≠ "" ∧ (pyStrip raw).length ≤ 20
  · rw [if_pos h]
    constructor
    · intro hc
      split at hc <;> simp_all
    · intro hor
      exfalso
      rcases hor with he | hl
      · exact h.1 he
      · omega
  · rw [if_neg h]
    simp only [true_iff]
    by_cases he : pyStrip raw = ""
    · exact Or.inl he
    · refine Or.inr ?_
      by_contra hl
      exact h ⟨he, by omega⟩

/-- C7: a chat message whose content strips to empty produces no effect and is
    delivered to no recipient; one with nonempty stripped content produces
    exactly one broadcast carrying the stripped content, the sender's
    registered name and the current time, with no excluded socket, delivered
    to the broadcast's recipients. -/
theorem C7_chat_processing (sock : Session) (username raw : String) (now : Nat)
    (fails : Session → Bool) (r : Registry) :
    process_message sock username (.chat raw) now
      = (if pyStrip raw = "" then []
         else [.broadcast (.chat username (pyStrip raw) now) none])
    ∧ deliveries fails r (process_message sock username (.chat raw) now)
      = (if pyStrip raw = "" then []
         else ((broadcast_message fails r (.chat username (pyStrip raw) now) none).sent).map
            (fun s => (s, Msg.chat username (pyStrip raw) now))) := by
  by_cases h : pyStrip raw = "" <;>
    simp [process_message, deliveries, effectDeliveries, h]

/-- C8 counterexample: the claim says the welcome is sent first and the
    user_joined broadcast second; in the code's acceptance path the
    user_joined broadcast (index 0) precedes the welcome send (index 1). -/
theorem C8_counterexample :
    idxUserJoined (handle_client_join [] 1 "alice" 5 6).2 = 0
    ∧ idxWelcome (handle_client_join [] 1 "alice" 5 6).2 = 1
    ∧ ¬ idxWelcome (handle_client_join [] 1 "alice" 5 6).2
        < idxUserJoined (handle_client_join [] 1 "alice" 5 6).2 := by
  decide

/-- C8 (amended): on acceptance the server first broadcasts user_joined
    excluding the joiner's socket (which is therefore not among the
    broadcast's recipients), and then sends the welcome whose users list is
    the post-insert snapshot, which contains the joiner; the first client to
    join as "alice" receives a welcome whose users list is exactly ["alice"]. -/
theorem C8_amended_join_sequence (r : Registry) (sock : Session) (username : String)
    (t1 t2 : Nat) :
    handle_client_join r sock username t1 t2
      = (r ++ [(sock, username)],
         [ .broadcast (.userJoined username (username ++ " joined the chat") t1) (some sock),
           .send sock (.welcome ("Welcome to the chat, " ++ username ++ "!")
             (values r ++ [username]) t2) ])
    ∧ username ∈ values (r ++ [(sock, username)])
    ∧ idxUserJoined (handle_client_join r sock username t1 t2).2 = 0
    ∧ idxWelcome (handle_client_join r sock username t1 t2).2 = 1
    ∧ (∀ fails m r2, sock ∉ (broadcast_message fails r2 m (some sock)).attempted)
    ∧ (handle_client_join [] 1 "alice" 5 6).2
      = [ .broadcast (.userJoined "alice" "alice joined the chat" 5) (some 1),
          .send 1 (.welcome "Welcome to the chat, alice!" ["alice"] 6) ] := by
  refine ⟨?_, by simp [values], rfl, rfl, ?_, by decide⟩
  · simp [handle_client_join, values]
  · intro fails m r2 hmem
    simp [broadcast_message] at hmem

/-- C9: after a join accepted by get_username for a fresh socket, the
    membership snapshot contains the name; removing the socket deletes its
    mapping, returns the removed name, and the snapshot no longer contains
    it; removing a socket that is absent returns none and leaves the registry
    unchanged, so removal is idempotent. -/
theorem C9_registry_remove (r : Registry) (sock : Session) (raw n : String)
    (hacc : get_username r raw = .accepted n) (hfresh : sock ∉ keys r) :
    n ∈ values (r ++ [(sock, n)])
    ∧ registryRemove (r ++ [(sock, n)]) sock = (r, some n)
    ∧ n ∉ values r
    ∧ registryRemove r sock = (r, none) := by
  have hnc : (values r).contains n = false := by
    simp only [get_username] at hacc
    split_ifs at hacc with h1 h2
    all_goals cases hacc
    all_goals simp_all
  have hnv : n ∉ values r := by simpa using hnc
  have hkey : ∀ p ∈ r, ¬ (p.1 == sock) = true := by
    intro p hp hps
    exact hfresh (List.mem_map.mpr ⟨p, hp, by simpa using hps⟩)
  have hfind : r.find? (fun p => p.1 == sock) = none := List.find?_eq_none.mpr hkey
  have hany : r.any (fun p => p.1 == sock) = false := List.any_eq_false.mpr hkey
  have hdel : delSock r sock = r := by
    rw [delSock, List.filter_eq_self]
    intro p hp
    simpa using fun hps => hkey p hp (by simpa using hps)
  refine ⟨by simp [values], ?_, hnv, ?_⟩
  · have hany2 : (r ++ [(sock, n)]).any (fun p => p.1 == sock) = true := by
      simp [List.any_append]
    have e1 : delSock (r ++ [(sock, n)]) sock = r := by
      rw [delSock, List.filter_append]
      have e0 : List.filter (fun p => p.1 != sock) [(sock, n)] = [] := by simp
      rw [e0, List.append_nil, ← delSock, hdel]
    have e2 : lookupName (r ++ [(sock, n)]) sock = some n := by
      rw [lookupName, List.find?_append, hfind]
      simp
    rw [registryRemove, if_pos (by rw [hany2]), e1, e2]
  · rw [registryRemove, if_neg (by rw [hany]; simp)]

/-- Witness for C9 at a concrete input: registry holding "bob" at socket 1,
    socket 2 joining as " alice " (stripped to "alice"). -/
theorem C9_registry_remove_witness :
    get_username [(1, "bob")] " alice " = .accepted "alice"
    ∧ (2 : Session) ∉ keys [(1, "bob")]
    ∧ ("alice" ∈ values ([(1, "bob")] ++ [(2, "alice")])
       ∧ registryRemove ([(1, "bob")] ++ [(2, "alice")]) 2 = ([(1, "bob")], some "alice")
       ∧ "alice" ∉ values [(1, "bob")]
       ∧ registryRemove [(1, "bob")] 2 = ([(1, "bob")], none)) :=
  ⟨by decide, by decide, C9_registry_remove [(1, "bob")] 2 " alice " "alice" (by decide) (by decide)⟩

/-- C10: a nonempty chat message is broadcast with no excluded socket, so the
    recipients are every registered socket — the sender included — and the
    sender receives its own chat message (stamped with its own name and the
    server's timestamp) when its transport works; unlike user_joined
    broadcasts, whose excluded socket is never among the recipients. -/
theorem C10_chat_includes_sender (sock : Session) (username raw : String)
    (now : Nat) (fails : Session → Bool) (r : Registry)
    (hne : pyStrip raw ≠ "") (hmem : sock ∈ keys r) (hok : fails sock = false) :
    process_message sock username (.chat raw) now
      = [.broadcast (.chat username (pyStrip raw) now) none]
    ∧ (broadcast_message fails r (.chat username (pyStrip raw) now) none).attempted = keys r
    ∧ sock ∈ (broadcast_message fails r (.chat username (pyStrip raw) now) none).sent
    ∧ (sock, Msg.chat username (pyStrip raw) now)
        ∈ deliveries fails r (process_message sock username (.chat raw) now)
    ∧ (∀ m r2, sock ∉ (broadcast_message fails r2 m (some sock)).attempted) := by
  have hproc : process_message sock username (.chat raw) now
      = [.broadcast (.chat username (pyStrip raw) now) none] := by
    simp [process_message, hne]
  have hatt : (broadcast_message fails r (.chat username (pyStrip raw) now) none).attempted
      = keys r := by
    simp [broadcast_message]
  have hsent : sock ∈ (broadcast_message fails r (.chat username (pyStrip raw) now) none).sent := by
    simp only [broadcast_message]
    refine List.mem_filter.mpr ⟨?_, ?_⟩
    · simpa using hmem
    · simp [send_message, socket_send, hok]
  refine ⟨hproc, hatt, hsent, ?_, ?_⟩
  · have hdel2 : deliveries fails r [.broadcast (.chat username (pyStrip raw) now) none]
        = ((broadcast_message fails r (.chat username (pyStrip raw) now) none).sent).map
            (fun s => (s, Msg.chat username (pyStrip raw) now)) := by
      simp [deliveries, effectDeliveries]
    rw [hproc, hdel2]
    exact List.mem_map_of_mem _ hsent
  · intro m r2 hmem2
    simp [broadcast_message] at hmem2

/-- Witness for C10 at a concrete input: sockets 1 and 2 registered, socket 2
    sends "hi", no transport failures. -/
theorem C10_chat_includes_sender_witness :
    pyStrip "hi" ≠ ""
    ∧ (2 : Session) ∈ keys [(1, "alice"), (2, "bob")]
    ∧ (fun (_ : Session) => false) 2 = false
    ∧ (process_message 2 "bob" (.chat "hi") 3
        = [.broadcast (.chat "bob" (pyStrip "hi") 3) none]
       ∧ (broadcast_message (fun _ => false) [(1, "alice"), (2, "bob")]
            (.chat "bob" (pyStrip "hi") 3) none).attempted = keys [(1, "alice"), (2, "bob")]
       ∧ 2 ∈ (broadcast_message (fun _ => false) [(1, "alice"), (2, "bob")]
            (.chat "bob" (pyStrip "hi") 3) none).sent
       ∧ (2, Msg.chat "bob" (pyStrip "hi") 3)
           ∈ deliveries (fun _ => false) [(1, "alice"), (2, "bob")]
               (process_message 2 "bob" (.chat "hi") 3)
       ∧ (∀ m r2, 2 ∉ (broadcast_message (fun _ => false) r2 m (some 2)).attempted)) :=
  ⟨by decide, by decide, rfl,
   C10_chat_includes_sender 2 "bob" "hi" 3 (fun _ => false) [(1, "alice"), (2, "bob")]
     (by decide) (by decide) rfl⟩


/-! ### The codec round-trip (claims C5 and C6) -/

theorem parseStrBody_nil (acc : List Char) : parseStrBody acc [] = none := by
  rw [parseStrBody.eq_def]

theorem parseStrBody_cons (acc : List Char) (c : Char) (rest : List Char) :
    parseStrBody acc (c :: rest)
      = (if c = '"' then some (acc.reverse, rest)
        else if c = '\\' then
          match rest with
          | [] => none
          | e :: rest2 =>
            if e = 'u' then
              match rest2 with
              | a :: b :: c2 :: d :: rest3 =>
                if isHexChar a && isHexChar b && isHexChar c2 && isHexChar d then
                  if 55296 ≤ hex4val a b c2 d ∧ hex4val a b c2 d < 56320 then
                    match rest3 with
                    | e2 :: u2 :: a2 :: b2 :: c3 :: d2 :: rest4 =>
                      if e2 = '\\' ∧ u2 = 'u' then
                        if isHexChar a2 && isHexChar b2 && isHexChar c3 && isHexChar d2 then
                          if 56320 ≤ hex4val a2 b2 c3 d2 ∧ hex4val a2 b2 c3 d2 < 57344 then
                            parseStrBody (Char.ofNat (65536 + (hex4val a b c2 d - 55296) * 1024
                              + (hex4val a2 b2 c3 d2 - 56320)) :: acc) rest4
                          else none
                        else none
                      else none
                    | _ => none
                  else if 56320 ≤ hex4val a b c2 d ∧ hex4val a b c2 d < 57344 then none
                  else parseStrBody (Char.ofNat (hex4val a b c2 d) :: acc) rest3
                else none
              | _ => none
            else
              match namedUnescape e with
              | some ch => parseStrBody (ch :: acc) rest2
              | none => none
        else if c.toNat < 32 then none
        else parseStrBody (c :: acc) rest) := by
  rw [parseStrBody.eq_def]


theorem toNat_ofNat_valid (n : Nat) (h : n.isValidChar) : (Char.ofNat n).toNat = n := by
  unfold Char.ofNat Char.ofNatAux
  split
  · rfl
  · next hh => exact absurd h hh

theorem char_valid_nat (c : Char) : c.toNat < 55296 ∨ (57343 < c.toNat ∧ c.toNat < 1114112) := by
  have h := c.valid
  rcases h with h | ⟨h1, h2⟩
  · exact Or.inl h
  · exact Or.inr ⟨h1, h2⟩

theorem hexDigitChar_spec : ∀ n, n < 16 →
    isHexChar (hexDigitChar n) = true ∧ hexCharVal (hexDigitChar n) = n
    ∧ 32 ≤ (hexDigitChar n).toNat := by
  decide

theorem mod16_lt (k : Nat) : k % 16 < 16 := Nat.mod_lt _ (by omega)

theorem hex4val_uEsc (n : Nat) (h : n < 65536) :
    hex4val (hexDigitChar (n / 4096 % 16)) (hexDigitChar (n / 256 % 16))
      (hexDigitChar (n / 16 % 16)) (hexDigitChar (n % 16)) = n := by
  rw [hex4val,
    (hexDigitChar_spec _ (mod16_lt _)).2.1, (hexDigitChar_spec _ (mod16_lt _)).2.1,
    (hexDigitChar_spec _ (mod16_lt _)).2.1, (hexDigitChar_spec _ (mod16_lt _)).2.1]
  omega

theorem uEsc_hex_true (n : Nat) :
    (isHexChar (hexDigitChar (n / 4096 % 16)) && isHexChar (hexDigitChar (n / 256 % 16))
      && isHexChar (hexDigitChar (n / 16 % 16)) && isHexChar (hexDigitChar (n % 16))) = true := by
  rw [(hexDigitChar_spec _ (mod16_lt _)).1, (hexDigitChar_spec _ (mod16_lt _)).1,
    (hexDigitChar_spec _ (mod16_lt _)).1, (hexDigitChar_spec _ (mod16_lt _)).1]
  rfl

theorem parseStrBody_uEsc (n : Nat) (acc : List Char) (rest : List Char)
    (hlt : n < 65536) (hsur : n < 55296 ∨ 57343 < n) :
    parseStrBody acc (uEsc n ++ rest) = parseStrBody (Char.ofNat n :: acc) rest := by
  rw [uEsc]
  simp only [List.cons_append, List.nil_append]
  rw [parseStrBody_cons]
  rw [if_neg (show ¬ ('\\' : Char) = '"' by decide),
    if_pos (show ('\\' : Char) = '\\' from rfl)]
  simp only [eq_self_iff_true, if_true]
  rw [if_pos (uEsc_hex_true n), hex4val_uEsc n hlt]
  rw [if_neg (show ¬ (55296 ≤ n ∧ n < 56320) by omega),
    if_neg (show ¬ (56320 ≤ n ∧ n < 57344) by omega)]


theorem parseStrBody_surrogate (v : Nat) (acc rest : List Char)
    (h1 : 65536 ≤ v) (h2 : v < 1114112) :
    parseStrBody acc (uEsc (55296 + (v - 65536) / 1024)
        ++ (uEsc (56320 + (v - 65536) % 1024) ++ rest))
      = parseStrBody (Char.ofNat v :: acc) rest := by
  rw [uEsc, uEsc]
  simp only [List.cons_append, List.nil_append]
  rw [parseStrBody_cons]
  rw [if_neg (show ¬ ('\\' : Char) = '"' by decide),
    if_pos (show ('\\' : Char) = '\\' from rfl)]
  simp only [eq_self_iff_true, if_true]
  rw [if_pos (uEsc_hex_true (55296 + (v - 65536) / 1024)),
    hex4val_uEsc (55296 + (v - 65536) / 1024) (by omega)]
  rw [if_pos (show 55296 ≤ 55296 + (v - 65536) / 1024 ∧ 55296 + (v - 65536) / 1024 < 56320
    by omega)]
  simp only [eq_self_iff_true, if_true, and_self]
  rw [if_pos (uEsc_hex_true (56320 + (v - 65536) % 1024)),
    hex4val_uEsc (56320 + (v - 65536) % 1024) (by omega)]
  rw [if_pos (show 56320 ≤ 56320 + (v - 65536) % 1024 ∧ 56320 + (v - 65536) % 1024 < 57344
    by omega)]
  have harith : 65536 + (55296 + (v - 65536) / 1024 - 55296) * 1024
      + (56320 + (v - 65536) % 1024 - 56320) = v := by omega
  rw [harith]

theorem parseStrBody_named (e ch : Char) (acc rest : List Char)
    (hu : ¬ e = 'u') (hn : namedUnescape e = some ch) :
    parseStrBody acc ('\\' :: e :: rest) = parseStrBody (ch :: acc) rest := by
  rw [parseStrBody_cons]
  rw [if_neg (show ¬ ('\\' : Char) = '"' by decide),
    if_pos (show ('\\' : Char) = '\\' from rfl)]
  simp only [if_neg hu, hn]

theorem parseStrBody_lit (c : Char) (acc rest : List Char)
    (hq : ¬ c = '"') (hbs : ¬ c = '\\') (hge : 32 ≤ c.toNat) :
    parseStrBody acc (c :: rest) = parseStrBody (c :: acc) rest := by
  rw [parseStrBody_cons, if_neg hq, if_neg hbs, if_neg (show ¬ c.toNat < 32 by omega)]

theorem parseStrBody_escape (c : Char) (acc rest : List Char) :
    parseStrBody acc (pyEscape c ++ rest) = parseStrBody (c :: acc) rest := by
  rw [pyEscape]
  by_cases h1 : c = '"'
  · rw [if_pos h1, h1]
    simp only [List.cons_append, List.nil_append]
    exact parseStrBody_named '"' '"' acc rest (by decide) (by decide)
  rw [if_neg h1]
  by_cases h2 : c = '\\'
  · rw [if_pos h2, h2]
    simp only [List.cons_append, List.nil_append]
    exact parseStrBody_named '\\' '\\' acc rest (by decide) (by decide)
  rw [if_neg h2]
  by_cases h3 : c = '\n'
  · rw [if_pos h3, h3]
    simp only [List.cons_append, List.nil_append]
    exact parseStrBody_named 'n' '\n' acc rest (by decide) (by decide)
  rw [if_neg h3]
  by_cases h4 : c = '\r'
  · rw [if_pos h4, h4]
    simp only [List.cons_append, List.nil_append]
    exact parseStrBody_named 'r' '\r' acc rest (by decide) (by decide)
  rw [if_neg h4]
  by_cases h5 : c = '\t'
  · rw [if_pos h5, h5]
    simp only [List.cons_append, List.nil_append]
    exact parseStrBody_named 't' '\t' acc rest (by decide) (by decide)
  rw [if_neg h5]
  by_cases h6 : c = '\x08'
  · rw [if_pos h6, h6]
    simp only [List.cons_append, List.nil_append]
    exact parseStrBody_named 'b' '\x08' acc rest (by decide) (by decide)
  rw [if_neg h6]
  by_cases h7 : c = '\x0c'
  · rw [if_pos h7, h7]
    simp only [List.cons_append, List.nil_append]
    exact parseStrBody_named 'f' '\x0c' acc rest (by decide) (by decide)
  rw [if_neg h7]
  by_cases h8 : c.toNat < 32
  · rw [if_pos h8, parseStrBody_uEsc c.toNat acc rest (by omega) (by omega),
      Char.ofNat_toNat]
  rw [if_neg h8]
  by_cases h9 : c.toNat ≤ 126
  · rw [if_pos h9]
    simp only [List.cons_append, List.nil_append]
    exact parseStrBody_lit c acc rest h1 h2 (by omega)
  rw [if_neg h9]
  have hv := char_valid_nat c
  by_cases h10 : c.toNat < 65536
  · rw [if_pos h10, parseStrBody_uEsc c.toNat acc rest h10 (by omega),
      Char.ofNat_toNat]
  rw [if_neg h10, List.append_assoc,
    parseStrBody_surrogate c.toNat acc rest (by omega) (by omega), Char.ofNat_toNat]

theorem parseStrBody_escapeAll (cs : List Char) : ∀ (acc rest : List Char),
    parseStrBody acc (escapeAll cs ++ '"' :: rest) = some (acc.reverse ++ cs, rest) := by
  induction cs with
  | nil =>
    intro acc rest
    rw [escapeAll]
    simp only [List.nil_append]
    rw [parseStrBody_cons, if_pos rfl, List.append_nil]
  | cons c cs ih =>
    intro acc rest
    rw [escapeAll, List.append_assoc, parseStrBody_escape, ih]
    simp


theorem digitChar_spec : ∀ k, k < 10 →
    isDig (Char.ofNat (48 + k)) = true ∧ (Char.ofNat (48 + k)).toNat = 48 + k := by
  decide

theorem natToChars_lt (n : Nat) (h : n < 10) : natToChars n = [Char.ofNat (48 + n)] := by
  rw [natToChars.eq_def, dif_pos h]

theorem natToChars_ge (n : Nat) (h : ¬ n < 10) :
    natToChars n = natToChars (n / 10) ++ [Char.ofNat (48 + n % 10)] := by
  rw [natToChars.eq_def, dif_neg h]

theorem natToChars_digits : ∀ n, ∀ c ∈ natToChars n, isDig c = true := by
  intro n
  induction n using Nat.strongRecOn with
  | _ n ih =>
    by_cases h : n < 10
    · rw [natToChars_lt n h]
      intro c hc
      rw [List.mem_singleton] at hc
      subst hc
      exact (digitChar_spec n h).1
    · rw [natToChars_ge n h]
      intro c hc
      rw [List.mem_append] at hc
      rcases hc with hc | hc
      · exact ih (n / 10) (Nat.div_lt_self (by omega) (by omega)) c hc
      · rw [List.mem_singleton] at hc
        subst hc
        exact (digitChar_spec _ (Nat.mod_lt _ (by omega))).1

theorem natToChars_head (n : Nat) :
    ∃ c t, natToChars n = c :: t ∧ isDig c = true := by
  induction n using Nat.strongRecOn with
  | _ n ih =>
    by_cases h : n < 10
    · exact ⟨Char.ofNat (48 + n), [], natToChars_lt n h, (digitChar_spec n h).1⟩
    · obtain ⟨c, t, he, hd⟩ := ih (n / 10) (Nat.div_lt_self (by omega) (by omega))
      exact ⟨c, t ++ [Char.ofNat (48 + n % 10)], by rw [natToChars_ge n h, he]; rfl, hd⟩

theorem parseDigits_cons (c : Char) (cs : List Char) (acc : Nat) :
    parseDigits (c :: cs) acc
      = (if isDig c then parseDigits cs (acc * 10 + (c.toNat - 48)) else (acc, c :: cs)) := by
  rw [parseDigits.eq_def]

theorem parseDigits_stop (cs : List Char) (acc : Nat) (h : noDigitHead cs = true) :
    parseDigits cs acc = (acc, cs) := by
  cases cs with
  | nil => rw [parseDigits.eq_def]
  | cons c t =>
    rw [parseDigits_cons, if_neg]
    rw [noDigitHead] at h
    simp only [Bool.not_eq_eq_eq_not, Bool.not_true] at h
    simp [h]

theorem parseDigits_run : ∀ n acc rest,
    parseDigits (natToChars n ++ rest) acc
      = parseDigits rest (acc * 10 ^ (natToChars n).length + n) := by
  intro n
  induction n using Nat.strongRecOn with
  | _ n ih =>
    intro acc rest
    by_cases h : n < 10
    · rw [natToChars_lt n h]
      simp only [List.cons_append, List.nil_append, List.length_singleton]
      rw [parseDigits_cons, if_pos (digitChar_spec n h).1, (digitChar_spec n h).2]
      have he : acc * 10 + (48 + n - 48) = acc * 10 ^ 1 + n := by omega
      rw [he]
    · rw [natToChars_ge n h, List.append_assoc,
        ih (n / 10) (Nat.div_lt_self (by omega) (by omega))]
      simp only [List.cons_append, List.nil_append]
      rw [parseDigits_cons, if_pos (digitChar_spec _ (Nat.mod_lt _ (by omega))).1,
        (digitChar_spec _ (Nat.mod_lt _ (by omega))).2]
      simp only [List.length_append, List.length_singleton]
      have he : (acc * 10 ^ (natToChars (n / 10)).length + n / 10) * 10 + (48 + n % 10 - 48)
          = acc * 10 ^ ((natToChars (n / 10)).length + 1) + n := by
        have hm : 48 + n % 10 - 48 = n % 10 := by omega
        have h2 : n / 10 * 10 + n % 10 = n := by omega
        calc (acc * 10 ^ (natToChars (n / 10)).length + n / 10) * 10 + (48 + n % 10 - 48)
            = acc * (10 ^ (natToChars (n / 10)).length * 10) + (n / 10 * 10 + n % 10) := by
              rw [hm]; ring
          _ = acc * 10 ^ ((natToChars (n / 10)).length + 1) + n := by rw [h2, pow_succ]
      rw [he]

theorem parseDigits_natToChars (n : Nat) (rest : List Char) (h : noDigitHead rest = true) :
    parseDigits (natToChars n ++ rest) 0 = (n, rest) := by
  rw [parseDigits_run, parseDigits_stop rest _ h]
  simp


theorem dumpVal_str (s : String) : dumpVal (.str s) = dumpString s := rfl
theorem dumpVal_num (n : Nat) : dumpVal (.num n) = natToChars n := rfl
theorem dumpVal_arr (es : List JVal) : dumpVal (.arr es) = '[' :: (dumpElems es ++ [']']) := rfl
theorem dumpVal_obj (ms : List (String × JVal)) :
    dumpVal (.obj ms) = lcurly :: (dumpMembers ms ++ [rcurly]) := rfl
theorem dumpElems_nil : dumpElems [] = [] := rfl
theorem dumpElems_cons (v : JVal) (vs : List JVal) :
    dumpElems (v :: vs) = dumpVal v ++ sepElems vs := rfl
theorem sepElems_nil : sepElems [] = [] := rfl
theorem sepElems_cons (v : JVal) (vs : List JVal) :
    sepElems (v :: vs) = ',' :: ' ' :: (dumpVal v ++ sepElems vs) := rfl
theorem dumpMembers_nil : dumpMembers [] = [] := rfl
theorem dumpMembers_cons (k : String) (v : JVal) (ms : List (String × JVal)) :
    dumpMembers ((k, v) :: ms) = dumpString k ++ ':' :: ' ' :: (dumpVal v ++ sepMembers ms) := rfl
theorem sepMembers_nil : sepMembers [] = [] := rfl
theorem sepMembers_cons (k : String) (v : JVal) (ms : List (String × JVal)) :
    sepMembers ((k, v) :: ms)
      = ',' :: ' ' :: (dumpString k ++ ':' :: ' ' :: (dumpVal v ++ sepMembers ms)) := rfl

theorem skipSpaces_nil : skipSpaces [] = [] := rfl
theorem skipSpaces_cons (c : Char) (t : List Char) :
    skipSpaces (c :: t) = (if isWsChar c then skipSpaces t else c :: t) := by
  rw [skipSpaces.eq_def]
theorem skipSpaces_notws (c : Char) (t : List Char) (h : isWsChar c = false) :
    skipSpaces (c :: t) = c :: t := by
  rw [skipSpaces_cons, h]
  rfl
theorem skipSpaces_space (t : List Char) : skipSpaces (' ' :: t) = skipSpaces t := by
  rw [skipSpaces_cons]
  rfl

theorem isDig_ne (c : Char) (h : isDig c = true) :
    isWsChar c = false ∧ ¬ c = '"' ∧ ¬ c = '[' ∧ ¬ c = lcurly ∧ ¬ c = ']'
      ∧ ¬ c = rcurly ∧ ¬ c = ',' ∧ ¬ c = ':' ∧ ¬ c = '\n' := by
  refine ⟨?_, ?_, ?_, ?_, ?_, ?_, ?_, ?_, ?_⟩
  · simp only [isWsChar, Bool.or_eq_false_iff, beq_eq_false_iff_ne]
    refine ⟨⟨⟨?_, ?_⟩, ?_⟩, ?_⟩ <;> (intro he; exact absurd (he ▸ h) (by decide))
  all_goals intro he; exact absurd (he ▸ h) (by decide)

theorem dumpVal_head (v : JVal) : ∃ c t, dumpVal v = c :: t ∧
    (c = '"' ∨ c = '[' ∨ c = lcurly ∨ isDig c = true) := by
  cases v with
  | str s => exact ⟨'"', _, rfl, Or.inl rfl⟩
  | num n =>
    obtain ⟨c, t, he, hd⟩ := natToChars_head n
    exact ⟨c, t, by rw [dumpVal_num, he], Or.inr (Or.inr (Or.inr hd))⟩
  | arr es => exact ⟨'[', _, rfl, Or.inr (Or.inl rfl)⟩
  | obj ms => exact ⟨lcurly, _, rfl, Or.inr (Or.inr (Or.inl rfl))⟩

theorem head_not_ws (c : Char)
    (h : c = '"' ∨ c = '[' ∨ c = lcurly ∨ isDig c = true) : isWsChar c = false := by
  rcases h with h | h | h | h
  · subst h; decide
  · subst h; decide
  · subst h; decide
  · exact (isDig_ne c h).1

theorem head_ne_rbrk (c : Char)
    (h : c = '"' ∨ c = '[' ∨ c = lcurly ∨ isDig c = true) : ¬ c = ']' := by
  rcases h with h | h | h | h
  · subst h; decide
  · subst h; decide
  · subst h; decide
  · exact (isDig_ne c h).2.2.2.2.1

theorem head_ne_rcurly (c : Char)
    (h : c = '"' ∨ c = '[' ∨ c = lcurly ∨ isDig c = true) : ¬ c = rcurly := by
  rcases h with h | h | h | h
  · subst h; decide
  · subst h; decide
  · subst h; decide
  · exact (isDig_ne c h).2.2.2.2.2.1

theorem skipSpaces_dump (v : JVal) (x : List Char) :
    skipSpaces (dumpVal v ++ x) = dumpVal v ++ x := by
  obtain ⟨c, t, he, hh⟩ := dumpVal_head v
  rw [he, List.cons_append, skipSpaces_notws _ _ (head_not_ws c hh)]


theorem mk_toList (s : String) : String.mk s.toList = s := rfl

theorem noDigitHead_cons (c : Char) (t : List Char) : noDigitHead (c :: t) = !isDig c := rfl

theorem sepElems_eq (v : JVal) (vs : List JVal) :
    sepElems (v :: vs) = ',' :: ' ' :: dumpElems (v :: vs) := by
  rw [sepElems_cons, dumpElems_cons]

theorem sepMembers_eq (k : String) (w : JVal) (ms : List (String × JVal)) :
    sepMembers ((k, w) :: ms) = ',' :: ' ' :: dumpMembers ((k, w) :: ms) := by
  rw [sepMembers_cons, dumpMembers_cons]

theorem parseVal_zero (input : List Char) : parseVal 0 input = none := by
  rw [parseVal.eq_def]

theorem parseVal_succ (fuel : Nat) (input : List Char) :
    parseVal (fuel + 1) input
      = (match skipSpaces input with
        | [] => none
        | c :: rest =>
          if c = '"' then
            (parseStrBody [] rest).map (fun p => (JVal.str (String.mk p.1), p.2))
          else if c = '[' then
            match skipSpaces rest with
            | [] => none
            | c2 :: r2 =>
              if c2 = ']' then some (.arr [], r2)
              else (parseElems fuel (c2 :: r2)).map (fun p => (JVal.arr p.1, p.2))
          else if c = lcurly then
            match skipSpaces rest with
            | [] => none
            | c2 :: r2 =>
              if c2 = rcurly then some (.obj [], r2)
              else (parseMembers fuel (c2 :: r2)).map (fun p => (JVal.obj p.1, p.2))
          else if isDig c then
            some (.num (parseDigits (c :: rest) 0).1, (parseDigits (c :: rest) 0).2)
          else none) := by
  rw [parseVal.eq_def]

theorem parseElems_succ (fuel : Nat) (input : List Char) :
    parseElems (fuel + 1) input
      = (match parseVal fuel input with
        | none => none
        | some (v, rest) =>
          match skipSpaces rest with
          | [] => none
          | c :: r2 =>
            if c = ',' then (parseElems fuel (skipSpaces r2)).map (fun p => (v :: p.1, p.2))
            else if c = ']' then some ([v], r2)
            else none) := by
  rw [parseElems.eq_def]

theorem parseMembers_succ (fuel : Nat) (input : List Char) :
    parseMembers (fuel + 1) input
      = (match skipSpaces input with
        | [] => none
        | c :: r1 =>
          if c = '"' then
            match parseStrBody [] r1 with
            | none => none
            | some (kcs, r2) =>
              match skipSpaces r2 with
              | [] => none
              | c2 :: r3 =>
                if c2 = ':' then
                  match parseVal fuel (skipSpaces r3) with
                  | none => none
                  | some (v, r4) =>
                    match skipSpaces r4 with
                    | [] => none
                    | c3 :: r5 =>
                      if c3 = ',' then
                        (parseMembers fuel (skipSpaces r5)).map
                          (fun p => ((String.mk kcs, v) :: p.1, p.2))
                      else if c3 = rcurly then some ([(String.mk kcs, v)], r5)
                      else none
                else none
          else none) := by
  rw [parseMembers.eq_def]


mutual
theorem parse_dump_val : ∀ (v : JVal) (fuel : Nat) (rest : List Char),
    (dumpVal v).length < fuel → noDigitHead rest = true →
    parseVal fuel (dumpVal v ++ rest) = some (v, rest)
  | .str s, 0, rest, hf, _ => absurd hf (Nat.not_lt_zero _)
  | .str s, fuel + 1, rest, hf, _ => by
    rw [dumpVal_str, dumpString, parseVal_succ]
    simp only [List.cons_append, List.append_assoc, List.singleton_append, List.nil_append]
    rw [skipSpaces_notws _ _ (by decide)]
    simp only [eq_self_iff_true, if_true]
    rw [parseStrBody_escapeAll]
    rfl
  | .num n, 0, rest, hf, _ => absurd hf (Nat.not_lt_zero _)
  | .num n, fuel + 1, rest, hf, hr => by
    rw [dumpVal_num, parseVal_succ]
    obtain ⟨c, t, he, hd⟩ := natToChars_head n
    rw [he, List.cons_append, skipSpaces_notws _ _ (isDig_ne c hd).1]
    simp only [if_neg (isDig_ne c hd).2.1, if_neg (isDig_ne c hd).2.2.1,
      if_neg (isDig_ne c hd).2.2.2.1, if_pos hd]
    rw [← List.cons_append, ← he, parseDigits_natToChars n rest hr]
  | .arr [], 0, rest, hf, _ => absurd hf (Nat.not_lt_zero _)
  | .arr [], fuel + 1, rest, hf, _ => by
    rw [dumpVal_arr, dumpElems_nil, parseVal_succ]
    simp only [List.nil_append, List.cons_append, List.singleton_append, List.append_nil]
    rw [skipSpaces_notws _ _ (by decide)]
    simp only [if_neg (show ¬ ('[' : Char) = '"' by decide), eq_self_iff_true, if_true]
    rw [skipSpaces_notws _ _ (by decide)]
    simp only [eq_self_iff_true, if_true]
  | .arr (v :: vs), 0, rest, hf, _ => absurd hf (Nat.not_lt_zero _)
  | .arr (v :: vs), fuel + 1, rest, hf, _ => by
    rw [dumpVal_arr, parseVal_succ]
    simp only [List.cons_append, List.append_assoc, List.singleton_append, List.nil_append]
    rw [skipSpaces_notws _ _ (by decide)]
    simp only [if_neg (show ¬ ('[' : Char) = '"' by decide), eq_self_iff_true, if_true]
    have hde : dumpElems (v :: vs) ++ ']' :: rest = dumpVal v ++ (sepElems vs ++ ']' :: rest) := by
      rw [dumpElems_cons, List.append_assoc]
    rw [hde, skipSpaces_dump]
    obtain ⟨c, t, hh, hp⟩ := dumpVal_head v
    rw [hh, List.cons_append]
    simp only [if_neg (head_ne_rbrk c hp)]
    rw [← List.cons_append, ← hh, ← List.append_assoc, ← dumpElems_cons]
    have harith : (dumpElems (v :: vs)).length + 1 < fuel := by
      have : (dumpVal (JVal.arr (v :: vs))).length = (dumpElems (v :: vs)).length + 2 := by
        rw [dumpVal_arr]
        simp [List.length_append]
      omega
    rw [parse_dump_elems v vs fuel rest harith]
    rfl
  | .obj [], 0, rest, hf, _ => absurd hf (Nat.not_lt_zero _)
  | .obj [], fuel + 1, rest, hf, _ => by
    rw [dumpVal_obj, dumpMembers_nil, parseVal_succ]
    simp only [List.nil_append, List.cons_append, List.singleton_append, List.append_nil]
    rw [skipSpaces_notws _ _ (by decide)]
    simp only [if_neg (show ¬ lcurly = '"' by decide), if_neg (show ¬ lcurly = '[' by decide),
      eq_self_iff_true, if_true]
    rw [skipSpaces_notws _ _ (by decide)]
    simp only [eq_self_iff_true, if_true]
  | .obj ((k, w) :: ms), 0, rest, hf, _ => absurd hf (Nat.not_lt_zero _)
  | .obj ((k, w) :: ms), fuel + 1, rest, hf, _ => by
    rw [dumpVal_obj, parseVal_succ]
    simp only [List.cons_append, List.append_assoc, List.singleton_append, List.nil_append]
    rw [skipSpaces_notws _ _ (by decide)]
    simp only [if_neg (show ¬ lcurly = '"' by decide), if_neg (show ¬ lcurly = '[' by decide),
      eq_self_iff_true, if_true]
    have hdm : dumpMembers ((k, w) :: ms) ++ rcurly :: rest
        = '"' :: (escapeAll k.toList ++ '"' :: (':' :: ' ' :: (dumpVal w ++ sepMembers ms)
            ++ rcurly :: rest)) := by
      rw [dumpMembers_cons, dumpString]
      simp only [List.cons_append, List.append_assoc, List.singleton_append, List.nil_append]
    rw [hdm, skipSpaces_notws _ _ (by decide)]
    simp only [if_neg (show ¬ ('"' : Char) = rcurly by decide)]
    rw [← hdm]
    have harith : (dumpMembers ((k, w) :: ms)).length + 1 < fuel := by
      have : (dumpVal (JVal.obj ((k, w) :: ms))).length
          = (dumpMembers ((k, w) :: ms)).length + 2 := by
        rw [dumpVal_obj]
        simp [List.length_append]
      omega
    rw [parse_dump_members k w ms fuel rest harith]
    rfl
termination_by v _ _ => sizeOf v
theorem parse_dump_elems : ∀ (v : JVal) (vs : List JVal) (fuel : Nat) (rest : List Char),
    (dumpElems (v :: vs)).length + 1 < fuel →
    parseElems fuel (dumpElems (v :: vs) ++ ']' :: rest) = some (v :: vs, rest)
  | v, [], 0, rest, hf => absurd hf (Nat.not_lt_zero _)
  | v, [], fuel + 1, rest, hf => by
    rw [parseElems_succ, dumpElems_cons, sepElems_nil, List.append_nil]
    have harith : (dumpVal v).length < fuel := by
      have : (dumpElems (v :: ([] : List JVal))).length = (dumpVal v).length := by
        rw [dumpElems_cons, sepElems_nil, List.append_nil]
      omega
    rw [parse_dump_val v fuel (']' :: rest) harith (by rw [noDigitHead_cons]; decide)]
    simp only
    rw [skipSpaces_notws _ _ (by decide)]
    simp only [if_neg (show ¬ (']' : Char) = ',' by decide), eq_self_iff_true, if_true]
  | v, w :: ws, 0, rest, hf => absurd hf (Nat.not_lt_zero _)
  | v, w :: ws, fuel + 1, rest, hf => by
    rw [parseElems_succ]
    have hsplit : dumpElems (v :: w :: ws) ++ ']' :: rest
        = dumpVal v ++ (',' :: ' ' :: (dumpElems (w :: ws) ++ ']' :: rest)) := by
      rw [dumpElems_cons, sepElems_eq, List.append_assoc]
      simp only [List.cons_append]
    have harith : (dumpVal v).length < fuel := by
      have : (dumpElems (v :: w :: ws)).length
          = (dumpVal v).length + 2 + (dumpElems (w :: ws)).length := by
        rw [dumpElems_cons, sepElems_eq]
        simp [List.length_append]
        omega
      omega
    rw [hsplit, parse_dump_val v fuel _ harith (by rw [noDigitHead_cons]; decide)]
    simp only
    rw [skipSpaces_notws _ _ (by decide)]
    simp only [eq_self_iff_true, if_true]
    rw [skipSpaces_space]
    have hde2 : dumpElems (w :: ws) ++ ']' :: rest = dumpVal w ++ (sepElems ws ++ ']' :: rest) := by
      rw [dumpElems_cons, List.append_assoc]
    rw [hde2, skipSpaces_dump, ← hde2]
    have harith2 : (dumpElems (w :: ws)).length + 1 < fuel := by
      have : (dumpElems (v :: w :: ws)).length
          = (dumpVal v).length + 2 + (dumpElems (w :: ws)).length := by
        rw [dumpElems_cons, sepElems_eq]
        simp [List.length_append]
        omega
      omega
    rw [parse_dump_elems w ws fuel rest harith2]
    rfl
termination_by v vs _ _ => sizeOf v + sizeOf vs
theorem parse_dump_members : ∀ (k : String) (w : JVal) (ms : List (String × JVal))
    (fuel : Nat) (rest : List Char),
    (dumpMembers ((k, w) :: ms)).length + 1 < fuel →
    parseMembers fuel (dumpMembers ((k, w) :: ms) ++ rcurly :: rest) = some ((k, w) :: ms, rest)
  | k, w, [], 0, rest, hf => absurd hf (Nat.not_lt_zero _)
  | k, w, [], fuel + 1, rest, hf => by
    rw [parseMembers_succ, dumpMembers_cons, sepMembers_nil, List.append_nil, dumpString]
    simp only [List.cons_append, List.append_assoc, List.singleton_append, List.nil_append]
    rw [skipSpaces_notws _ _ (by decide)]
    simp only [eq_self_iff_true, if_true]
    rw [parseStrBody_escapeAll]
    simp only [List.reverse_nil, List.nil_append]
    rw [skipSpaces_notws _ _ (by decide)]
    simp only [eq_self_iff_true, if_true]
    rw [skipSpaces_space, skipSpaces_dump]
    have harith : (dumpVal w).length < fuel := by
      have : (dumpMembers ((k, w) :: ([] : List (String × JVal)))).length
          = (dumpString k).length + 2 + (dumpVal w).length := by
        rw [dumpMembers_cons, sepMembers_nil, List.append_nil]
        simp [List.length_append]
        omega
      omega
    rw [parse_dump_val w fuel (rcurly :: rest) harith (by rw [noDigitHead_cons]; decide)]
    simp only
    rw [skipSpaces_notws _ _ (by decide)]
    simp only [if_neg (show ¬ rcurly = ',' by decide), eq_self_iff_true, if_true, mk_toList]
  | k, w, (k2, w2) :: ms, 0, rest, hf => absurd hf (Nat.not_lt_zero _)
  | k, w, (k2, w2) :: ms, fuel + 1, rest, hf => by
    rw [parseMembers_succ]
    have hsplit : dumpMembers ((k, w) :: (k2, w2) :: ms) ++ rcurly :: rest
        = '"' :: (escapeAll k.toList ++ '"' :: (':' :: ' ' :: (dumpVal w
            ++ (',' :: ' ' :: (dumpMembers ((k2, w2) :: ms) ++ rcurly :: rest))))) := by
      rw [dumpMembers_cons, sepMembers_eq, dumpString]
      simp only [List.cons_append, List.append_assoc, List.singleton_append, List.nil_append]
    rw [hsplit, skipSpaces_notws _ _ (by decide)]
    simp only [eq_self_iff_true, if_true]
    rw [parseStrBody_escapeAll]
    simp only [List.reverse_nil, List.nil_append]
    rw [skipSpaces_notws _ _ (by decide)]
    simp only [eq_self_iff_true, if_true]
    rw [skipSpaces_space, skipSpaces_dump]
    have harith : (dumpVal w).length < fuel := by
      have : (dumpMembers ((k, w) :: (k2, w2) :: ms)).length
          = (dumpString k).length + 2 + (dumpVal w).length
            + (2 + (dumpMembers ((k2, w2) :: ms)).length) := by
        rw [dumpMembers_cons, sepMembers_eq]
        simp [List.length_append]
        omega
      omega
    rw [parse_dump_val w fuel _ harith (by rw [noDigitHead_cons]; decide)]
    simp only
    rw [skipSpaces_notws _ _ (by decide)]
    simp only [eq_self_iff_true, if_true]
    rw [skipSpaces_space]
    have hdm2 : dumpMembers ((k2, w2) :: ms) ++ rcurly :: rest
        = '"' :: (escapeAll k2.toList ++ '"' :: (':' :: ' ' :: (dumpVal w2 ++ sepMembers ms)
            ++ rcurly :: rest)) := by
      rw [dumpMembers_cons, dumpString]
      simp only [List.cons_append, List.append_assoc, List.singleton_append, List.nil_append]
    rw [hdm2, skipSpaces_notws _ _ (by decide), ← hdm2]
    have harith2 : (dumpMembers ((k2, w2) :: ms)).length + 1 < fuel := by
      have : (dumpMembers ((k, w) :: (k2, w2) :: ms)).length
          = (dumpString k).length + 2 + (dumpVal w).length
            + (2 + (dumpMembers ((k2, w2) :: ms)).length) := by
        rw [dumpMembers_cons, sepMembers_eq]
        simp [List.length_append]
        omega
      omega
    rw [parse_dump_members k2 w2 ms fuel rest harith2]
    rfl
termination_by _ w ms _ _ => sizeOf w + sizeOf ms
end

theorem loads_dumps (v : JVal) : loads (dumps v) = some v := by
  have h := parse_dump_val v ((dumpVal v).length + 1) [] (by omega) rfl
  rw [List.append_nil] at h
  rw [dumps]
  simp only [loads, h, skipSpaces_nil]
  rfl

theorem uEsc_ge32 (n : Nat) : ∀ x ∈ uEsc n, 32 ≤ x.toNat := by
  intro x hx
  rw [uEsc] at hx
  simp only [List.mem_cons, List.not_mem_nil, or_false] at hx
  rcases hx with rfl | rfl | rfl | rfl | rfl | rfl
  · decide
  · decide
  · exact (hexDigitChar_spec _ (mod16_lt _)).2.2
  · exact (hexDigitChar_spec _ (mod16_lt _)).2.2
  · exact (hexDigitChar_spec _ (mod16_lt _)).2.2
  · exact (hexDigitChar_spec _ (mod16_lt _)).2.2

set_option maxHeartbeats 1000000 in
theorem pyEscape_ge32 (c : Char) : ∀ x ∈ pyEscape c, 32 ≤ x.toNat := by
  intro x hx
  rw [pyEscape] at hx
  split_ifs at hx with h1 h2 h3 h4 h5 h6 h7 h8 h9 h10
  · simp only [List.mem_cons, List.not_mem_nil, or_false] at hx
    rcases hx with rfl | rfl <;> decide
  · simp only [List.mem_cons, List.not_mem_nil, or_false] at hx
    rcases hx with rfl | rfl <;> decide
  · simp only [List.mem_cons, List.not_mem_nil, or_false] at hx
    rcases hx with rfl | rfl <;> decide
  · simp only [List.mem_cons, List.not_mem_nil, or_false] at hx
    rcases hx with rfl | rfl <;> decide
  · simp only [List.mem_cons, List.not_mem_nil, or_false] at hx
    rcases hx with rfl | rfl <;> decide
  · simp only [List.mem_cons, List.not_mem_nil, or_false] at hx
    rcases hx with rfl | rfl <;> decide
  · simp only [List.mem_cons, List.not_mem_nil, or_false] at hx
    rcases hx with rfl | rfl <;> decide
  · exact uEsc_ge32 _ x hx
  · simp only [List.mem_singleton] at hx
    subst hx
    omega
  · exact uEsc_ge32 _ x hx
  · rw [List.mem_append] at hx
    rcases hx with hx | hx
    · exact uEsc_ge32 _ x hx
    · exact uEsc_ge32 _ x hx

theorem escapeAll_ge32 (cs : List Char) : ∀ x ∈ escapeAll cs, 32 ≤ x.toNat := by
  induction cs with
  | nil => intro x hx; rw [escapeAll] at hx; cases hx
  | cons c t ih =>
    intro x hx
    rw [escapeAll, List.mem_append] at hx
    rcases hx with hx | hx
    · exact pyEscape_ge32 c x hx
    · exact ih x hx

theorem dumpString_ge32 (s : String) : ∀ x ∈ dumpString s, 32 ≤ x.toNat := by
  intro x hx
  rw [dumpString, List.mem_cons, List.mem_append, List.mem_singleton] at hx
  rcases hx with rfl | hx | rfl
  · decide
  · exact escapeAll_ge32 _ x hx
  · decide

theorem natToChars_ge32 (n : Nat) : ∀ x ∈ natToChars n, 32 ≤ x.toNat := by
  intro x hx
  have hd := natToChars_digits n x hx
  rw [isDig] at hd
  simp only [Bool.and_eq_true, decide_eq_true_eq] at hd
  omega

mutual
theorem dumpVal_ge32 : ∀ (v : JVal) (x : Char), x ∈ dumpVal v → 32 ≤ x.toNat
  | .str s, x, hx => dumpString_ge32 s x (by rwa [dumpVal_str] at hx)
  | .num n, x, hx => natToChars_ge32 n x (by rwa [dumpVal_num] at hx)
  | .arr es, x, hx => by
    rw [dumpVal_arr, List.mem_cons, List.mem_append, List.mem_singleton] at hx
    rcases hx with rfl | hx | rfl
    · decide
    · exact dumpElems_ge32 es x hx
    · decide
  | .obj ms, x, hx => by
    rw [dumpVal_obj, List.mem_cons, List.mem_append, List.mem_singleton] at hx
    rcases hx with rfl | hx | rfl
    · decide
    · exact dumpMembers_ge32 ms x hx
    · decide
theorem dumpElems_ge32 : ∀ (vs : List JVal) (x : Char), x ∈ dumpElems vs → 32 ≤ x.toNat
  | [], x, hx => by rw [dumpElems_nil] at hx; cases hx
  | v :: vs, x, hx => by
    rw [dumpElems_cons, List.mem_append] at hx
    rcases hx with hx | hx
    · exact dumpVal_ge32 v x hx
    · exact sepElems_ge32 vs x hx
theorem sepElems_ge32 : ∀ (vs : List JVal) (x : Char), x ∈ sepElems vs → 32 ≤ x.toNat
  | [], x, hx => by rw [sepElems_nil] at hx; cases hx
  | v :: vs, x, hx => by
    rw [sepElems_cons, List.mem_cons, List.mem_cons, List.mem_append] at hx
    rcases hx with rfl | rfl | hx | hx
    · decide
    · decide
    · exact dumpVal_ge32 v x hx
    · exact sepElems_ge32 vs x hx
theorem dumpMembers_ge32 : ∀ (ms : List (String × JVal)) (x : Char),
    x ∈ dumpMembers ms → 32 ≤ x.toNat
  | [], x, hx => by rw [dumpMembers_nil] at hx; cases hx
  | (k, w) :: ms, x, hx => by
    rw [dumpMembers_cons, List.mem_append, List.mem_cons, List.mem_cons, List.mem_append] at hx
    rcases hx with hx | rfl | rfl | hx | hx
    · exact dumpString_ge32 k x hx
    · decide
    · decide
    · exact dumpVal_ge32 w x hx
    · exact sepMembers_ge32 ms x hx
theorem sepMembers_ge32 : ∀ (ms : List (String × JVal)) (x : Char),
    x ∈ sepMembers ms → 32 ≤ x.toNat
  | [], x, hx => by rw [sepMembers_nil] at hx; cases hx
  | (k, w) :: ms, x, hx => by
    rw [sepMembers_cons, List.mem_cons, List.mem_cons, List.mem_append, List.mem_cons,
      List.mem_cons, List.mem_append] at hx
    rcases hx with rfl | rfl | hx | rfl | rfl | hx | hx
    · decide
    · decide
    · exact dumpString_ge32 k x hx
    · decide
    · decide
    · exact dumpVal_ge32 w x hx
    · exact sepMembers_ge32 ms x hx
end

theorem newline_not_mem_dumps (v : JVal) : ¬ '\n' ∈ dumps v := by
  intro h
  rw [dumps] at h
  have := dumpVal_ge32 v '\n' h
  revert this
  decide

theorem splitNl_nl (cs : List Char) : splitNl ('\n' :: cs) = ([], cs) := by
  rw [splitNl.eq_def]
  simp

theorem splitNl_cons (c : Char) (cs : List Char) (h : ¬ c = '\n') :
    splitNl (c :: cs) = (c :: (splitNl cs).1, (splitNl cs).2) := by
  rw [splitNl.eq_def]
  simp [h]

theorem splitNl_append (xs ys : List Char) (h : ¬ '\n' ∈ xs) :
    splitNl (xs ++ '\n' :: ys) = (xs, ys) := by
  induction xs with
  | nil => rw [List.nil_append, splitNl_nl]
  | cons c t ih =>
    rw [List.cons_append, splitNl_cons c _ (fun he => h (he ▸ List.mem_cons_self c t)),
      ih (fun ht => h (List.mem_cons_of_mem c ht))]

/-- C5: the codec round-trip law: for every wire value, decoding the encoding
    yields the value back — encode serializes to one newline-terminated JSON
    line (json.dumps plus the terminator, as send_message writes it) and
    decode splits at the first terminator and parses the prefix (as
    receive_message reads it). -/
theorem C5_decode_encode_roundtrip (v : JVal) : decode (encode v) = some v := by
  rw [encode, decode]
  rw [if_pos (show (dumps v ++ ['\n']).contains '\n' = true by simp)]
  have he : dumps v ++ ['\n'] = dumps v ++ '\n' :: [] := rfl
  rw [he, splitNl_append (dumps v) [] (newline_not_mem_dumps v)]
  exact loads_dumps v

/-- C6: for every wire value, the encoding contains exactly one newline
    terminator byte, located at the very end; newlines inside string fields
    are escaped by json.dumps, so no raw terminator occurs in the payload. -/
theorem C6_encode_single_terminator (v : JVal) :
    (encode v).count '\n' = 1 ∧ (encode v).getLast? = some '\n' ∧ ¬ '\n' ∈ dumps v := by
  refine ⟨?_, ?_, newline_not_mem_dumps v⟩
  · rw [encode, List.count_append, List.count_eq_zero.mpr (newline_not_mem_dumps v)]
    rfl
  · rw [encode]
    exact List.getLast?_concat _


end SocketChat
